import Mathlib

/-!
Shallow embedding of the time-series pipeline of `py_met_viewer`
(`src/plot_met.py`, `src/shot_viewer.py`): nested-field access over JSON
records, time-scale inference and normalization, trim-index computation,
dual-axis zero alignment, and compare-mode trace styling.

Numeric values are modelled as exact rationals (`ℚ`); the Python float
`nan` sentinel is modelled as `Option.none`, so a per-sample result is
`Option ℚ` (`some q` = finite float, `none` = the NaN sentinel).
A raised exception is modelled with `Except` / `Option` at the level of
the whole operation.
-/

namespace PyMetViewer

/-- A JSON value as produced by `json.load`: `null`, booleans, (finite)
numbers, strings, arrays, and objects (ordered key/value lists). -/
inductive Json where
  | null : Json
  | bool : Bool → Json
  | num : ℚ → Json
  | str : String → Json
  | arr : List Json → Json
  | obj : List (String × Json) → Json

/-- Python `k in cur` / `cur[k]` on a dict: first binding of key `k`. -/
def lookupKey (fields : List (String × Json)) (k : String) : Option Json :=
  match fields with
  | [] => none
  | (k', v) :: rest => if k' = k then some v else lookupKey rest k

/-- `safe_get(d, path, default=nan)` from both sources: walk `path` key by
key; if the current node is not a dict or the key is absent, return the
default (the NaN sentinel, here `none`); otherwise descend. -/
def safeGet (d : Json) : List String → Option Json
  | [] => some d
  | k :: ks =>
    match d with
    | .obj fields =>
      match lookupKey fields k with
      | some v => safeGet v ks
      | none => none
    | _ => none

/-- Parse a decimal numeral the way Python `float(str)` does on plain
decimal literals: optional sign, digits, optional fractional part (model
restricted to sign/digits/point; no exponents or `inf`/`nan` words).
`none` models `ValueError`. -/
def parseFloat (s : String) : Option ℚ :=
  let chars := s.toList
  let afterSign : List Char × Bool :=
    match chars with
    | '-' :: rest => (rest, true)
    | '+' :: rest => (rest, false)
    | _ => (chars, false)
  let body := afterSign.1
  let neg := afterSign.2
  let intPart := body.takeWhile (fun c => c.isDigit)
  let rest := body.dropWhile (fun c => c.isDigit)
  let parsed : Option ℚ :=
    match rest with
    | [] =>
      if intPart.isEmpty then none
      else some ((intPart.foldl (fun acc c => acc * 10 + (c.toNat - 48)) 0 : ℕ) : ℚ)
    | '.' :: fracChars =>
      if fracChars.all (fun c => c.isDigit) ∧ ¬(intPart.isEmpty ∧ fracChars.isEmpty) then
        some (((intPart.foldl (fun acc c => acc * 10 + (c.toNat - 48)) 0 : ℕ) : ℚ)
          + ((fracChars.foldl (fun acc c => acc * 10 + (c.toNat - 48)) 0 : ℕ) : ℚ)
            / ((10 : ℚ) ^ fracChars.length))
      else none
    | _ => none
  parsed.map (fun q => if neg then -q else q)

/-- Python `float(v)` on a JSON-decoded value: numbers pass through,
booleans coerce to 0/1, numeric strings parse, everything else
(`None`, lists, dicts, non-numeric strings) raises — modelled as `none`. -/
def pyFloat : Json → Option ℚ
  | .num q => some q
  | .bool b => some (if b then 1 else 0)
  | .str s => parseFloat s
  | .null => none
  | .arr _ => none
  | .obj _ => none

/-- `ShotData.get_series` per-record step (`shot_viewer.py`):
`val = safe_get(r, path, nan)`, then `float(val) if val is not None else
nan`, with `TypeError`/`ValueError` caught and turned into the sentinel. -/
def extractField (r : Json) (path : List String) : Option ℚ :=
  match safeGet r path with
  | none => none
  | some v =>
    match v with
    | .null => none
    | v => pyFloat v

/-- `ShotData.get_series`: one extracted sample per record. -/
def getSeries (records : List Json) (path : List String) : List (Option ℚ) :=
  records.map (fun r => extractField r path)

/-- One value-extraction step of `build_series` (`plot_met.py`):
`float(_safe_get(r, path))` with NO try/except. `Except.error` models an
uncaught `TypeError`/`ValueError`; `.ok none` is the NaN sentinel
(`float(nan)` succeeds); `.ok (some q)` is a finite float. -/
def extractFieldPM (r : Json) (path : List String) : Except Unit (Option ℚ) :=
  match safeGet r path with
  | none => .ok none
  | some v =>
    match pyFloat v with
    | some q => .ok (some q)
    | none => .error ()

/-- The `plot_met.py` list comprehension
`[float(_safe_get(r, path)) for r in records]`: the first uncaught
exception aborts the whole series. -/
def buildSeriesPM (records : List Json) (path : List String) :
    Except Unit (List (Option ℚ)) :=
  records.mapM (fun r => extractFieldPM r path)

/-! ### Time-scale inference and normalization
(`_infer_time_scale_ms_to_s` in `plot_met.py`, `infer_time_scale` in
`shot_viewer.py` — identical logic.) -/

/-- `[abs(t[i] - t[i-1]) for i in range(1, len(t))]`. -/
def rawDeltas (ts : List ℚ) : List ℚ :=
  List.zipWith (fun a b => |b - a|) ts ts.tail

/-- `[d for d in deltas if d > 0]`. -/
def posDeltas (ts : List ℚ) : List ℚ :=
  (rawDeltas ts).filter (fun d => 0 < d)

/-- `sorted(deltas)[len(deltas) // 2]` — lower-middle element. -/
def medianDelta (ts : List ℚ) : ℚ :=
  let ds := (posDeltas ts).mergeSort (fun a b => a ≤ b)
  ds.getD (ds.length / 2) 0

/-- `infer_time_scale(times_raw)`: fewer than 2 samples → `1.0`; no
positive deltas → `1.0`; median delta ≥ 5 → `1/1000`; else `1.0`. -/
def inferTimeScale (ts : List ℚ) : ℚ :=
  if ts.length < 2 then 1
  else if posDeltas ts = [] then 1
  else if 5 ≤ medianDelta ts then 1 / 1000
  else 1

/-- `x = [(t - t0) * scale for t in times_raw]` with
`t0 = times_raw[0] if times_raw else 0.0`. -/
def normalizeTimes (raw : List ℚ) : List ℚ :=
  raw.map (fun t => (t - raw.headD 0) * inferTimeScale raw)

/-- `float(r.get("time", 0.0))` per record of `ShotData._load` /
`build_series`: a missing key yields `0.0`; a present value goes through
`float` with no exception handler (`none` = the load raises and aborts). -/
def getTimeRaw (r : Json) : Option ℚ :=
  match r with
  | .obj fields =>
    match lookupKey fields "time" with
    | none => some 0
    | some v => pyFloat v
  | _ => none

/-- `times_raw = [float(r.get("time", 0.0)) for r in records]`: the first
exception aborts construction of the whole shot. -/
def rawTimes (records : List Json) : Option (List ℚ) :=
  records.mapM getTimeRaw

/-! ### Trim index
(the loop in `get_trimmed_data` inside `ShotViewerFrame._update_plot`:
`trim_idx = len(time_s); for i, t in enumerate(time_s): if t >
trim_duration: trim_idx = i; break`.) -/

/-- Index of the first sample strictly exceeding the bound, or the full
length when none does. -/
def trimIndex (bound : ℚ) : List ℚ → ℕ
  | [] => 0
  | t :: ts => if bound < t then 0 else trimIndex bound ts + 1

/-! ### Dual-axis zero alignment
(`_align_yaxis_zero` in `plot_met.py` / `align_yaxis_zero` in
`shot_viewer.py`.) The intermediate ratio can be the float `inf` (when a
widened max is `0`), and an applied new minimum `-inf * max` can be the
float `-inf`, so lower bounds live in `LB` (finite or `-∞`) and ratios in
`RB` (finite or `+∞`). -/

/-- A y-axis lower limit: a finite float or `-inf`. -/
inductive LB where
  | ninf : LB
  | fin : ℚ → LB
deriving DecidableEq, Repr

/-- `min(y_min, 0)` on a lower limit. -/
def LB.min0 : LB → LB
  | .ninf => .ninf
  | .fin q => .fin (min q 0)

/-- A negative/positive ratio: a finite float or `+inf`. -/
inductive RB where
  | fin : ℚ → RB
  | pinf : RB
deriving DecidableEq, Repr

/-- `ratio = -y_min / y_max if y_max > 0 else float('inf')`;
`-(-inf)/m = +inf` for `m > 0`. -/
def ratioOf (ymin : LB) (ymax : ℚ) : RB :=
  if 0 < ymax then
    match ymin with
    | .ninf => .pinf
    | .fin q => .fin (-q / ymax)
  else .pinf

/-- Python `max` on two ratios; `inf` dominates. -/
def RB.max2 : RB → RB → RB
  | .pinf, _ => .pinf
  | .fin _, .pinf => .pinf
  | .fin a, .fin b => .fin (max a b)

/-- `-target_ratio * y_max` (applied only when `y_max > 0`);
`-inf * positive = -inf`. -/
def newMin : RB → ℚ → LB
  | .pinf, _ => .ninf
  | .fin t, ymax => .fin (-t * ymax)

/-- An axis range `(lo, hi)` as read from / written to `set_ylim`; the
upper limit stays finite throughout the algorithm. -/
structure AxRange where
  lo : LB
  hi : ℚ
deriving DecidableEq, Repr

/-- `target_ratio = max(ratio1, ratio2)` over the zero-widened ranges. -/
def targetRatio (r1 r2 : AxRange) : RB :=
  RB.max2 (ratioOf r1.lo.min0 (max r1.hi 0)) (ratioOf r2.lo.min0 (max r2.hi 0))

/-- `align_yaxis_zero(ax1, ax2)` as a pure function on the two ranges:
widen each to include zero, return unchanged on the two degenerate
guards, else raise each positive-max axis's minimum to
`-target_ratio * max`. An axis whose widened max is `0`, or both axes on
an early return, keep their ORIGINAL (un-widened) limits. -/
def alignYaxisZero (r1 r2 : AxRange) : AxRange × AxRange :=
  if max r1.hi 0 = 0 ∧ max r2.hi 0 = 0 then (r1, r2)
  else if r1.lo.min0 = LB.fin 0 ∧ r2.lo.min0 = LB.fin 0 then (r1, r2)
  else
    (if 0 < max r1.hi 0 then
       AxRange.mk (newMin (targetRatio r1 r2) (max r1.hi 0)) (max r1.hi 0)
     else r1,
     if 0 < max r2.hi 0 then
       AxRange.mk (newMin (targetRatio r1 r2) (max r2.hi 0)) (max r2.hi 0)
     else r2)

/-- `lo ≤ lo'` on lower limits (`-inf` below everything). -/
def LB.le : LB → LB → Prop
  | .ninf, _ => True
  | .fin _, .ninf => False
  | .fin a, .fin b => a ≤ b

instance : DecidableRel LB.le := by
  intro a b
  cases a <;> cases b <;> simp only [LB.le] <;> infer_instance

/-! ### Compare-mode trace styling
(`ShotViewerFrame._update_plot`, compare branch: both shots' traces get
the same `color`; shot 1 gets `style.get("linestyle", "-")`, shot 2 gets
`"--" if linestyle == "-" else ":"`.) -/

/-- A per-field style override (`self.field_styles.get(key, dict())`);
`none` entries are absent keys. -/
structure FieldStyle where
  color : Option String
  linestyle : Option String
  linewidth : Option ℚ

/-- `style.get("color") or colors[i % len(colors)]` — Python `or` falls
through on `None` and on the falsy empty string. -/
def effColor (st : FieldStyle) (palette : String) : String :=
  match st.color with
  | some c => if c = "" then palette else c
  | none => palette

/-- Shot 1 trace `(color, linestyle)` in compare mode. -/
def shot1Style (st : FieldStyle) (palette : String) : String × String :=
  (effColor st palette, st.linestyle.getD "-")

/-- Shot 2 trace `(color, linestyle)` in compare mode:
`ls2 = "--" if linestyle == "-" else ":"`. -/
def shot2Style (st : FieldStyle) (palette : String) : String × String :=
  (effColor st palette, if st.linestyle.getD "-" = "-" then "--" else ":")

/-! ## Helper lemmas -/

lemma trimIndex_eq_takeWhile (bound : ℚ) (ts : List ℚ) :
    trimIndex bound ts = (ts.takeWhile (fun t => decide (t ≤ bound))).length := by
  induction ts with
  | nil => rfl
  | cons t ts ih =>
    by_cases h : bound < t
    · rw [trimIndex, if_pos h, List.takeWhile_cons, decide_eq_false (not_le.mpr h)]
      rfl
    · rw [trimIndex, if_neg h, List.takeWhile_cons, decide_eq_true (not_lt.mp h)]
      simp [ih]

lemma trimIndex_le_length (bound : ℚ) (ts : List ℚ) : trimIndex bound ts ≤ ts.length := by
  induction ts with
  | nil => exact le_refl 0
  | cons t ts ih =>
    rw [trimIndex]
    by_cases h : bound < t
    · rw [if_pos h]; simp
    · rw [if_neg h]; simpa using ih

lemma trimIndex_mem_le (bound : ℚ) (ts : List ℚ) :
    ∀ i, i < trimIndex bound ts → ts.getD i 0 ≤ bound := by
  induction ts with
  | nil => intro i h; rw [trimIndex] at h; omega
  | cons t ts ih =>
    intro i h
    rw [trimIndex] at h
    by_cases hb : bound < t
    · rw [if_pos hb] at h; omega
    · rw [if_neg hb] at h
      cases i with
      | zero => simpa using not_lt.mp hb
      | succ j =>
        rw [List.getD_cons_succ]
        exact ih j (by omega)

lemma trimIndex_first_exceeds (bound : ℚ) (ts : List ℚ) :
    trimIndex bound ts < ts.length → bound < ts.getD (trimIndex bound ts) 0 := by
  induction ts with
  | nil => intro h; rw [trimIndex] at h; simp at h
  | cons t ts ih =>
    intro h
    rw [trimIndex]
    by_cases hb : bound < t
    · rw [if_pos hb]; simpa using hb
    · rw [if_neg hb, List.getD_cons_succ]
      rw [trimIndex, if_neg hb] at h
      exact ih (by simpa using h)

lemma mapM_getTimeRaw_length (l : List Json) :
    ∀ ts : List ℚ, l.mapM getTimeRaw = some ts → ts.length = l.length := by
  induction l with
  | nil =>
    intro ts h
    rw [List.mapM_nil] at h
    simp only [pure, Option.some.injEq] at h
    simp [← h]
  | cons r rs ih =>
    intro ts h
    rw [List.mapM_cons] at h
    cases hr : getTimeRaw r with
    | none => rw [hr] at h; simp at h
    | some q =>
      rw [hr] at h
      cases hrs : rs.mapM getTimeRaw with
      | none => rw [hrs] at h; simp at h
      | some qs =>
        rw [hrs] at h
        simp only [Option.bind_eq_bind, Option.some_bind, pure, Option.some.injEq] at h
        rw [← h]
        simp [ih qs hrs]

lemma mapM_getTimeRaw_fail (l1 : List Json) (r : Json) (l2 : List Json)
    (h : getTimeRaw r = none) : (l1 ++ r :: l2).mapM getTimeRaw = none := by
  induction l1 with
  | nil => rw [List.nil_append, List.mapM_cons, h]; rfl
  | cons a l1 ih =>
    rw [List.cons_append, List.mapM_cons, ih]
    cases getTimeRaw a <;> rfl

/-! ## Claims -/

/-- C2: the inferred time-scale multiplier is `0.001` exactly when there
are at least 2 samples, some positive consecutive difference survives,
and the lower-middle median (index `⌊n/2⌋` of the sorted positive
differences) is `≥ 5`; it is `1.0` with fewer than 2 samples, with no
positive differences, or with a median `< 5`. -/
theorem C2_time_scale_inference (ts : List ℚ) :
    (inferTimeScale ts = 1 / 1000 ↔
      2 ≤ ts.length ∧ posDeltas ts ≠ [] ∧ 5 ≤ medianDelta ts) ∧
    (ts.length < 2 → inferTimeScale ts = 1) ∧
    (posDeltas ts = [] → inferTimeScale ts = 1) ∧
    (medianDelta ts < 5 → inferTimeScale ts = 1) := by
  unfold inferTimeScale
  split_ifs with h1 h2 h3
  · exact ⟨⟨fun h => absurd h (by norm_num), fun h => absurd h.1 (by omega)⟩,
      fun _ => rfl, fun _ => rfl, fun _ => rfl⟩
  · exact ⟨⟨fun h => absurd h (by norm_num), fun h => absurd h2 h.2.1⟩,
      fun _ => rfl, fun _ => rfl, fun _ => rfl⟩
  · exact ⟨⟨fun _ => ⟨by omega, h2, h3⟩, fun _ => rfl⟩,
      fun h => absurd h h1, fun h => absurd h h2, fun h => absurd h (not_lt.mpr h3)⟩
  · exact ⟨⟨fun h => absurd h (by norm_num), fun h => absurd h.2.2 h3⟩,
      fun _ => rfl, fun _ => rfl, fun _ => rfl⟩

/-- Witness for C2: the empty stream gets multiplier `1.0`, and a
100-per-tick stream is classified as milliseconds. -/
theorem C2_time_scale_inference_witness :
    inferTimeScale ([] : List ℚ) = 1 ∧ inferTimeScale [0, 100, 200, 300] = 1 / 1000 := by
  constructor
  · exact (C2_time_scale_inference []).2.1 (by norm_num)
  · refine (C2_time_scale_inference [0, 100, 200, 300]).1.mpr ⟨by norm_num, ?_, ?_⟩
    · have h : posDeltas [0, 100, 200, 300] = [100, 100, 100] := by
        norm_num [posDeltas, rawDeltas]
      simp [h]
    · have h : posDeltas [0, 100, 200, 300] = [100, 100, 100] := by
        norm_num [posDeltas, rawDeltas]
      unfold medianDelta
      rw [h, List.mergeSort_of_sorted (by norm_num [List.pairwise_cons])]
      norm_num

/-- C3: the trim index equals the count of leading samples `≤` the
bound (a `takeWhile` length), is at most the sequence length, every
sample before it is `≤` the bound, the sample at it (when in range)
strictly exceeds the bound, and `trim_index([0,1,2,3,4], 2.5) = 3`. -/
theorem C3_trim_index (ts : List ℚ) (bound : ℚ) :
    trimIndex bound ts = (ts.takeWhile (fun t => decide (t ≤ bound))).length ∧
    trimIndex bound ts ≤ ts.length ∧
    (∀ i, i < trimIndex bound ts → ts.getD i 0 ≤ bound) ∧
    (trimIndex bound ts < ts.length → bound < ts.getD (trimIndex bound ts) 0) ∧
    trimIndex (5 / 2) [0, 1, 2, 3, 4] = 3 :=
  ⟨trimIndex_eq_takeWhile bound ts, trimIndex_le_length bound ts, trimIndex_mem_le bound ts,
   trimIndex_first_exceeds bound ts, by norm_num [trimIndex]⟩

/-- Witness for C3 at `elapsed = [0,1,2,3,4]`, `bound = 5/2`: the sample
at the returned index 3 strictly exceeds the bound. -/
theorem C3_trim_index_witness :
    (5 : ℚ) / 2 < ([0, 1, 2, 3, 4] : List ℚ).getD 3 0 := by
  have h := (C3_trim_index [0, 1, 2, 3, 4] (5 / 2)).2.2.2.1 (by norm_num [trimIndex])
  rwa [show trimIndex (5 / 2) [0, 1, 2, 3, 4] = 3 from by norm_num [trimIndex]] at h

/-- C7: every built series has exactly one sample per record — for any
path, including one absent from every record — and the elapsed-time
sequence derived from the same record stream has that same length. -/
theorem C7_series_and_time_length (records : List Json) (path : List String) :
    (getSeries records path).length = records.length ∧
    (∀ ts, rawTimes records = some ts →
      (normalizeTimes ts).length = records.length) := by
  refine ⟨by simp [getSeries], fun ts h => ?_⟩
  rw [normalizeTimes, List.length_map]
  exact mapM_getTimeRaw_length records ts h

/-- Witness for C7 on a concrete two-record stream. -/
theorem C7_series_and_time_length_witness :
    (normalizeTimes [0, 100]).length =
      ([Json.obj [("time", Json.num 0)], Json.obj [("time", Json.num 100)]] : List Json).length :=
  (C7_series_and_time_length
    [Json.obj [("time", Json.num 0)], Json.obj [("time", Json.num 100)]]
    ["shot", "pressure"]).2 [0, 100] rfl

/-- C8: for a non-empty raw time sequence, the normalized sequence
satisfies `elapsed[i] = (raw[i] - raw[0]) * multiplier`, and its first
element is exactly `0`. -/
theorem C8_normalize_elapsed (raw : List ℚ) (h : raw ≠ []) :
    (normalizeTimes raw).headD 1 = 0 ∧
    (∀ i, i < raw.length →
      (normalizeTimes raw).getD i 0 =
        (raw.getD i 0 - raw.headD 0) * inferTimeScale raw) := by
  constructor
  · match raw, h with
    | t :: ts, _ => simp [normalizeTimes]
  · intro i hi
    rw [normalizeTimes, List.getD_eq_getElem?_getD, List.getElem?_map,
        List.getElem?_eq_getElem hi]
    simp [List.getD_eq_getElem?_getD, List.getElem?_eq_getElem hi]

/-- Witness for C8 at `raw = [0, 100, 200, 300]`. -/
theorem C8_normalize_elapsed_witness : (normalizeTimes [0, 100, 200, 300]).headD 1 = 0 :=
  (C8_normalize_elapsed [0, 100, 200, 300] (by simp)).1

/-- C10: the top-level `time` field is exempt from per-field gap
isolation: a record without a `time` key contributes raw time `0.0`
(not the sentinel); a present but non-coercible `time` value (non-numeric
string, null, nested object) raises, and that exception aborts the whole
time-sequence construction — whereas any other field's non-coercible value
only yields a per-sample sentinel. -/
theorem C10_time_field_exemption (fields : List (String × Json))
    (records₁ records₂ : List Json) (r : Json) :
    (lookupKey fields "time" = none → getTimeRaw (Json.obj fields) = some 0) ∧
    (getTimeRaw r = none → rawTimes (records₁ ++ r :: records₂) = none) ∧
    getTimeRaw (Json.obj [("time", Json.str "abc")]) = none ∧
    getTimeRaw (Json.obj [("time", Json.null)]) = none ∧
    getTimeRaw (Json.obj [("time", Json.obj [("units", Json.str "ms")])]) = none ∧
    (∀ path v, safeGet r path = some v → pyFloat v = none →
      extractField r path = none) := by
  refine ⟨fun h => ?_, fun h => mapM_getTimeRaw_fail records₁ r records₂ h,
    rfl, rfl, rfl, fun path v hs hp => ?_⟩
  · simp only [getTimeRaw, h]
  · simp only [extractField, hs]
    cases v <;> simp_all [pyFloat]

/-- Witness for C10: a record with no `time` key yields raw time `0`,
and one bad `time` value aborts the whole stream's time sequence. -/
theorem C10_time_field_exemption_witness :
    getTimeRaw (Json.obj [("humidity", Json.num 3)]) = some 0 ∧
    rawTimes [Json.obj [("time", Json.num 0)], Json.obj [("time", Json.str "abc")]] = none :=
  ⟨(C10_time_field_exemption [("humidity", Json.num 3)] [] [] Json.null).1 rfl,
   (C10_time_field_exemption [] [Json.obj [("time", Json.num 0)]] []
     (Json.obj [("time", Json.str "abc")])).2.1 rfl⟩

/-- C1 counterexample: the claim "extracting a field never raises …
every series built from any record stream consists only of floats and
sentinels" fails for `build_series` in `plot_met.py`: a record whose
`shot.pressure` is the non-numeric string `"x"` makes
`float(_safe_get(r, ["shot","pressure"]))` raise an uncaught
`ValueError`, aborting the series. -/
theorem C1_field_extraction_counterexample :
    buildSeriesPM [Json.obj [("shot", Json.obj [("pressure", Json.str "x")])]]
      ["shot", "pressure"] = Except.error () := rfl

/-- C1 (amended): `ShotData.get_series` extraction never raises — a
non-mapping node or absent key at any step, and a final value that cannot
be coerced (wrong type, non-numeric string, null), all yield the NaN
sentinel, so its series are floats and sentinels only. `build_series` in
`plot_met.py` yields the sentinel for missing keys and non-mapping
intermediates, but raises precisely when a present final value cannot be
coerced to float. -/
theorem C1_field_extraction_safety (r : Json) (path : List String) :
    (extractField r path = none ∨ ∃ q, extractField r path = some q) ∧
    (∀ k ks, path = k :: ks → (∀ fields, r ≠ Json.obj fields) →
      extractField r path = none) ∧
    (∀ fields k ks, r = Json.obj fields → path = k :: ks →
      lookupKey fields k = none → extractField r path = none) ∧
    (∀ v, safeGet r path = some v → (v = Json.null ∨ pyFloat v = none) →
      extractField r path = none) ∧
    (safeGet r path = none → extractFieldPM r path = Except.ok none) ∧
    (∀ e, extractFieldPM r path = Except.error e →
      ∃ v, safeGet r path = some v ∧ pyFloat v = none) := by
  refine ⟨?_, ?_, ?_, ?_, ?_, ?_⟩
  · cases h : extractField r path with
    | none => exact Or.inl rfl
    | some q => exact Or.inr ⟨q, rfl⟩
  · intro k ks hp hr
    subst hp
    cases r with
    | obj fields => exact absurd rfl (hr fields)
    | null => rfl
    | bool b => rfl
    | num q => rfl
    | str s => rfl
    | arr xs => rfl
  · intro fields k ks hr hp hl
    subst hr; subst hp
    simp [extractField, safeGet, hl]
  · intro v hs hv
    simp only [extractField, hs]
    rcases hv with hv | hv
    · subst hv; rfl
    · cases v <;> simp_all [pyFloat]
  · intro h
    simp [extractFieldPM, h]
  · intro e h
    unfold extractFieldPM at h
    cases hs : safeGet r path with
    | none => simp [hs] at h
    | some v =>
      simp only [hs] at h
      cases hp : pyFloat v with
      | none => exact ⟨v, rfl, hp⟩
      | some q => simp [hp] at h

/-- Witness for C1 (amended): a present non-numeric string yields the
sentinel through `get_series`, not an exception. -/
theorem C1_field_extraction_safety_witness :
    extractField (Json.obj [("shot", Json.obj [("pressure", Json.str "zz")])])
      ["shot", "pressure"] = none :=
  (C1_field_extraction_safety (Json.obj [("shot", Json.obj [("pressure", Json.str "zz")])])
    ["shot", "pressure"]).2.2.2.1 (Json.str "zz") rfl (Or.inr rfl)

/-- C9 counterexample: with the per-field style override
`linestyle = ":"`, the two shots' traces in compare mode get the SAME
line pattern `":"` (and shot 1's pattern is not solid), contradicting
"distinct line patterns (solid for the first shot …)" for every
override. The color is still shared. -/
theorem C9_compare_trace_styles_counterexample :
    (shot1Style ⟨none, some ":", none⟩ "tab1").1 =
      (shot2Style ⟨none, some ":", none⟩ "tab1").1 ∧
    (shot1Style ⟨none, some ":", none⟩ "tab1").2 = ":" ∧
    (shot2Style ⟨none, some ":", none⟩ "tab1").2 = ":" ∧
    (shot1Style ⟨none, some ":", none⟩ "tab1").2 ≠ "-" := by
  refine ⟨rfl, rfl, rfl, by decide⟩

/-- C9 (amended): in compare mode the two shots' traces for a field
always share one color; shot 1 draws with the field's configured
linestyle (solid `"-"` when no override), shot 2 with `"--"` when shot 1
is solid and `":"` otherwise; the two patterns are distinct whenever the
configured linestyle is not itself `":"`. -/
theorem C9_compare_trace_styles (st : FieldStyle) (palette : String) :
    (shot1Style st palette).1 = (shot2Style st palette).1 ∧
    (shot1Style st palette).2 = st.linestyle.getD "-" ∧
    (shot2Style st palette).2 =
      (if st.linestyle.getD "-" = "-" then "--" else ":") ∧
    (st.linestyle = none →
      (shot1Style st palette).2 = "-" ∧ (shot2Style st palette).2 = "--") ∧
    ((shot1Style st palette).2 ≠ ":" →
      (shot1Style st palette).2 ≠ (shot2Style st palette).2) := by
  refine ⟨rfl, rfl, rfl, fun h => by simp [shot1Style, shot2Style, h], fun h => ?_⟩
  by_cases hd : st.linestyle.getD "-" = "-"
  · have h2 : (shot2Style st palette).2 = "--" := by
      show (if st.linestyle.getD "-" = "-" then "--" else ":") = "--"
      rw [if_pos hd]
    rw [h2]
    show st.linestyle.getD "-" ≠ "--"
    rw [hd]
    decide
  · have h2 : (shot2Style st palette).2 = ":" := by
      show (if st.linestyle.getD "-" = "-" then "--" else ":") = ":"
      rw [if_neg hd]
    rw [h2]
    exact h

/-- Witness for C9 (amended): with no override, shot 1 is solid and
shot 2 dashed. -/
theorem C9_compare_trace_styles_witness :
    (shot1Style ⟨none, none, none⟩ "tab2").2 = "-" ∧
    (shot2Style ⟨none, none, none⟩ "tab2").2 = "--" :=
  (C9_compare_trace_styles ⟨none, none, none⟩ "tab2").2.2.2.1 rfl

/-! ## Alignment helper lemmas -/

/-- A ratio is nonnegative (`+inf` counts as nonnegative). -/
def RB.nonneg : RB → Prop
  | .fin a => 0 ≤ a
  | .pinf => True

lemma LB.le_refl (x : LB) : LB.le x x := by
  cases x with
  | ninf => trivial
  | fin q => exact le_rfl

lemma ratioOf_min0_nonneg (x : LB) (m : ℚ) : (ratioOf x.min0 m).nonneg := by
  unfold ratioOf
  by_cases hm : 0 < m
  · rw [if_pos hm]
    cases x with
    | ninf => trivial
    | fin q =>
      show 0 ≤ -(min q 0) / m
      apply div_nonneg _ hm.le
      simp
  · rw [if_neg hm]; trivial

lemma RB.max2_nonneg {a b : RB} (ha : a.nonneg) (hb : b.nonneg) :
    (RB.max2 a b).nonneg := by
  cases a with
  | pinf => trivial
  | fin a' =>
    cases b with
    | pinf => trivial
    | fin b' => exact le_max_of_le_left ha

lemma RB.max2_pinf_right (a : RB) : RB.max2 a .pinf = .pinf := by
  cases a <;> rfl

lemma RB.max2_self (a : RB) : RB.max2 a a = a := by
  cases a with
  | pinf => rfl
  | fin a' => show RB.fin (max a' a') = RB.fin a'; rw [max_self]

lemma max2_eq_fin {a b : RB} {c : ℚ} (h : RB.max2 a b = .fin c) :
    ∃ x y, a = .fin x ∧ b = .fin y ∧ x ≤ c ∧ y ≤ c := by
  cases a with
  | pinf => exact absurd h (by simp [RB.max2])
  | fin x =>
    cases b with
    | pinf => exact absurd h (by simp [RB.max2])
    | fin y =>
      have hxy : max x y = c := by
        have := h
        simp only [RB.max2, RB.fin.injEq] at this
        exact this
      exact ⟨x, y, rfl, rfl, hxy ▸ le_max_left x y, hxy ▸ le_max_right x y⟩

lemma ratioOf_not_pos {x : LB} {m : ℚ} (hm : ¬ 0 < m) : ratioOf x m = .pinf := by
  unfold ratioOf
  rw [if_neg hm]

lemma targetRatio_nonneg (r1 r2 : AxRange) : (targetRatio r1 r2).nonneg :=
  RB.max2_nonneg (ratioOf_min0_nonneg r1.lo (max r1.hi 0))
    (ratioOf_min0_nonneg r2.lo (max r2.hi 0))

lemma newMin_min0 {t : RB} (ht : t.nonneg) {m : ℚ} (hm : 0 ≤ m) :
    (newMin t m).min0 = newMin t m := by
  cases t with
  | pinf => rfl
  | fin a =>
    show LB.fin (min (-a * m) 0) = LB.fin (-a * m)
    rw [min_eq_left]
    have ha : (0 : ℚ) ≤ a := ht
    nlinarith

lemma ratioOf_newMin {t : RB} (ht : t.nonneg) {m : ℚ} (hm : 0 < m) :
    ratioOf (newMin t m).min0 m = t := by
  rw [newMin_min0 ht hm.le]
  cases t with
  | pinf => show ratioOf LB.ninf m = RB.pinf; unfold ratioOf; rw [if_pos hm]
  | fin a =>
    show ratioOf (LB.fin (-a * m)) m = RB.fin a
    unfold ratioOf
    rw [if_pos hm]
    show RB.fin (-(-a * m) / m) = RB.fin a
    rw [neg_mul, neg_neg, mul_div_cancel_right₀ a hm.ne']

lemma newMin_nonpos {t : RB} (ht : t.nonneg) {m : ℚ} (hm : 0 ≤ m) :
    LB.le (newMin t m) (LB.fin 0) := by
  cases t with
  | pinf => trivial
  | fin a =>
    show -a * m ≤ 0
    have ha : (0 : ℚ) ≤ a := ht
    nlinarith

lemma newMin_ne_fin_zero {t : RB} (htz : t ≠ RB.fin 0) (ht : t.nonneg) {m : ℚ}
    (hm : 0 < m) : newMin t m ≠ LB.fin 0 := by
  cases t with
  | pinf => simp [newMin]
  | fin a =>
    simp only [newMin, ne_eq, LB.fin.injEq]
    intro h
    have ha : a = 0 := by
      rcases mul_eq_zero.mp h with h' | h'
      · linarith [neg_eq_zero.mp h']
      · exact absurd h' hm.ne'
    exact htz (by rw [ha])

lemma ratio_min0_eq_zero {x : LB} {m : ℚ} (hm : 0 < m)
    (h : ratioOf x.min0 m = RB.fin 0) : x.min0 = LB.fin 0 := by
  unfold ratioOf at h
  rw [if_pos hm] at h
  cases x with
  | ninf => exact absurd h (by simp [LB.min0])
  | fin q =>
    show LB.fin (min q 0) = LB.fin 0
    have h' : -(min q 0) / m = 0 := by
      have := h
      simp only [LB.min0, RB.fin.injEq] at this
      exact this
    rcases div_eq_zero_iff.mp h' with h'' | h''
    · rw [neg_eq_zero.mp h'']
    · exact absurd h'' hm.ne'

lemma targetRatio_ne_zero {r1 r2 : AxRange}
    (hB : ¬(r1.lo.min0 = LB.fin 0 ∧ r2.lo.min0 = LB.fin 0))
    (h1 : 0 < max r1.hi 0) (h2 : 0 < max r2.hi 0) :
    targetRatio r1 r2 ≠ RB.fin 0 := by
  intro h
  obtain ⟨x, y, hx, hy, hxc, hyc⟩ := max2_eq_fin h
  have hx0 : x = 0 := by
    have := ratioOf_min0_nonneg r1.lo (max r1.hi 0)
    rw [hx] at this
    exact le_antisymm hxc this
  have hy0 : y = 0 := by
    have := ratioOf_min0_nonneg r2.lo (max r2.hi 0)
    rw [hy] at this
    exact le_antisymm hyc this
  exact hB ⟨ratio_min0_eq_zero h1 (hx0 ▸ hx), ratio_min0_eq_zero h2 (hy0 ▸ hy)⟩

lemma newMin_le_lo_of_max2 {x : LB} {m : ℚ} (hm : 0 < m) {t : RB}
    (hle : ∀ a, t = RB.fin a → ∃ b, ratioOf x.min0 m = RB.fin b ∧ b ≤ a) :
    LB.le (newMin t m) x := by
  cases t with
  | pinf =>
    cases x with
    | ninf => trivial
    | fin q => trivial
  | fin a =>
    obtain ⟨b, hb, hba⟩ := hle a rfl
    unfold ratioOf at hb
    rw [if_pos hm] at hb
    cases x with
    | ninf => exact absurd hb (by simp [LB.min0])
    | fin q =>
      show -a * m ≤ q
      have hb' : -(min q 0) / m = b := by
        have := hb
        simp only [LB.min0, RB.fin.injEq] at this
        exact this
      have h1 : -a * m ≤ -b * m :=
        mul_le_mul_of_nonneg_right (neg_le_neg hba) hm.le
      have h2 : -b * m = min q 0 := by
        rw [← hb']
        field_simp
      linarith [min_le_left q 0]

/-! ## Alignment branch lemmas -/

lemma align_guardA {r1 r2 : AxRange} (h : max r1.hi 0 = 0 ∧ max r2.hi 0 = 0) :
    alignYaxisZero r1 r2 = (r1, r2) := by
  rw [alignYaxisZero, if_pos h]

lemma align_guardB {r1 r2 : AxRange} (hA : ¬(max r1.hi 0 = 0 ∧ max r2.hi 0 = 0))
    (hB : r1.lo.min0 = LB.fin 0 ∧ r2.lo.min0 = LB.fin 0) :
    alignYaxisZero r1 r2 = (r1, r2) := by
  rw [alignYaxisZero, if_neg hA, if_pos hB]

lemma align_main {r1 r2 : AxRange} (hA : ¬(max r1.hi 0 = 0 ∧ max r2.hi 0 = 0))
    (hB : ¬(r1.lo.min0 = LB.fin 0 ∧ r2.lo.min0 = LB.fin 0)) :
    alignYaxisZero r1 r2 =
      (if 0 < max r1.hi 0 then
         AxRange.mk (newMin (targetRatio r1 r2) (max r1.hi 0)) (max r1.hi 0)
       else r1,
       if 0 < max r2.hi 0 then
         AxRange.mk (newMin (targetRatio r1 r2) (max r2.hi 0)) (max r2.hi 0)
       else r2) := by
  rw [alignYaxisZero, if_neg hA, if_neg hB]

lemma max0_eq_self {a : ℚ} (h : 0 < max a 0) : max a 0 = a := by
  rcases max_cases a 0 with ⟨he, _⟩ | ⟨he, _⟩
  · exact he
  · rw [he] at h; exact absurd h (lt_irrefl 0)

/-- C4: dual-axis alignment never clips data: both upper limits are kept
unchanged, both new minima are `≤` the corresponding original minima (the
negative side only ever extends downward), on the non-degenerate path
each axis with positive widened max is set to
`(-target_ratio * max, max)`, and
`align((-2,10), (-1,2)) = ((-5,10), (-1,2))`. -/
theorem C4_align_never_clips (r1 r2 : AxRange) :
    (alignYaxisZero r1 r2).1.hi = r1.hi ∧
    (alignYaxisZero r1 r2).2.hi = r2.hi ∧
    LB.le (alignYaxisZero r1 r2).1.lo r1.lo ∧
    LB.le (alignYaxisZero r1 r2).2.lo r2.lo ∧
    (¬(max r1.hi 0 = 0 ∧ max r2.hi 0 = 0) →
      ¬(r1.lo.min0 = LB.fin 0 ∧ r2.lo.min0 = LB.fin 0) →
      (0 < max r1.hi 0 →
        (alignYaxisZero r1 r2).1 =
          AxRange.mk (newMin (targetRatio r1 r2) (max r1.hi 0)) (max r1.hi 0)) ∧
      (0 < max r2.hi 0 →
        (alignYaxisZero r1 r2).2 =
          AxRange.mk (newMin (targetRatio r1 r2) (max r2.hi 0)) (max r2.hi 0))) ∧
    alignYaxisZero (AxRange.mk (LB.fin (-2)) 10) (AxRange.mk (LB.fin (-1)) 2) =
      (AxRange.mk (LB.fin (-5)) 10, AxRange.mk (LB.fin (-1)) 2) := by
  have hexample :
      alignYaxisZero (AxRange.mk (LB.fin (-2)) 10) (AxRange.mk (LB.fin (-1)) 2) =
        (AxRange.mk (LB.fin (-5)) 10, AxRange.mk (LB.fin (-1)) 2) := by
    rw [alignYaxisZero, if_neg (by norm_num), if_neg (by norm_num [LB.min0])]
    norm_num [targetRatio, LB.min0, ratioOf, RB.max2, newMin]
  by_cases hA : max r1.hi 0 = 0 ∧ max r2.hi 0 = 0
  · rw [align_guardA hA]
    exact ⟨rfl, rfl, LB.le_refl r1.lo, LB.le_refl r2.lo,
      fun hA' => absurd hA hA', hexample⟩
  by_cases hB : r1.lo.min0 = LB.fin 0 ∧ r2.lo.min0 = LB.fin 0
  · rw [align_guardB hA hB]
    exact ⟨rfl, rfl, LB.le_refl r1.lo, LB.le_refl r2.lo,
      fun _ hB' => absurd hB hB', hexample⟩
  rw [align_main hA hB]
  refine ⟨?_, ?_, ?_, ?_, fun _ _ => ⟨fun h1 => by rw [if_pos h1], fun h2 => by rw [if_pos h2]⟩,
    hexample⟩
  · by_cases h1 : 0 < max r1.hi 0
    · rw [if_pos h1]; exact max0_eq_self h1
    · rw [if_neg h1]
  · by_cases h2 : 0 < max r2.hi 0
    · rw [if_pos h2]; exact max0_eq_self h2
    · rw [if_neg h2]
  · by_cases h1 : 0 < max r1.hi 0
    · rw [if_pos h1]
      exact newMin_le_lo_of_max2 h1 (fun a ha => by
        obtain ⟨x, y, hx, hy, hxc, _⟩ := max2_eq_fin ha
        exact ⟨x, hx, hxc⟩)
    · rw [if_neg h1]; exact LB.le_refl r1.lo
  · by_cases h2 : 0 < max r2.hi 0
    · rw [if_pos h2]
      exact newMin_le_lo_of_max2 h2 (fun a ha => by
        obtain ⟨x, y, hx, hy, _, hyc⟩ := max2_eq_fin ha
        exact ⟨y, hy, hyc⟩)
    · rw [if_neg h2]; exact LB.le_refl r2.lo

/-- Witness for C4: in the worked example the updated axis 1 indeed takes
the `-target_ratio * max` form. -/
theorem C4_align_never_clips_witness :
    (alignYaxisZero (AxRange.mk (LB.fin (-2)) 10) (AxRange.mk (LB.fin (-1)) 2)).1 =
      AxRange.mk
        (newMin (targetRatio (AxRange.mk (LB.fin (-2)) 10) (AxRange.mk (LB.fin (-1)) 2))
          (max (10 : ℚ) 0))
        (max (10 : ℚ) 0) :=
  ((C4_align_never_clips (AxRange.mk (LB.fin (-2)) 10)
      (AxRange.mk (LB.fin (-1)) 2)).2.2.2.2.1
    (by norm_num) (by norm_num [LB.min0])).1 (by norm_num)

/-- C6 counterexample: the claim "both ranges produced by dual-axis
alignment contain zero, for every pair of input ranges" is false: two
all-negative input ranges hit the first degenerate guard and are
returned with their ORIGINAL (un-widened) limits, whose maxima are below
zero. -/
theorem C6_zero_containment_counterexample :
    alignYaxisZero (AxRange.mk (LB.fin (-2)) (-1)) (AxRange.mk (LB.fin (-2)) (-1)) =
      (AxRange.mk (LB.fin (-2)) (-1), AxRange.mk (LB.fin (-2)) (-1)) ∧
    ¬ (0 : ℚ) ≤
      (alignYaxisZero (AxRange.mk (LB.fin (-2)) (-1)) (AxRange.mk (LB.fin (-2)) (-1))).1.hi := by
  have h : alignYaxisZero (AxRange.mk (LB.fin (-2)) (-1)) (AxRange.mk (LB.fin (-2)) (-1)) =
      (AxRange.mk (LB.fin (-2)) (-1), AxRange.mk (LB.fin (-2)) (-1)) :=
    align_guardA (by norm_num)
  refine ⟨h, by rw [h]; norm_num⟩

/-- C6 (amended): when neither degenerate guard fires, every axis whose
zero-widened maximum is positive produces an output range containing
zero (`lo ≤ 0 ≤ hi`); an axis whose widened maximum is `0` keeps its
original input range, which need not contain zero. -/
theorem C6_zero_containment (r1 r2 : AxRange)
    (hA : ¬(max r1.hi 0 = 0 ∧ max r2.hi 0 = 0))
    (hB : ¬(r1.lo.min0 = LB.fin 0 ∧ r2.lo.min0 = LB.fin 0)) :
    (0 < max r1.hi 0 →
      LB.le (alignYaxisZero r1 r2).1.lo (LB.fin 0) ∧
      0 ≤ (alignYaxisZero r1 r2).1.hi) ∧
    (0 < max r2.hi 0 →
      LB.le (alignYaxisZero r1 r2).2.lo (LB.fin 0) ∧
      0 ≤ (alignYaxisZero r1 r2).2.hi) ∧
    (max r1.hi 0 = 0 → (alignYaxisZero r1 r2).1 = r1) ∧
    (max r2.hi 0 = 0 → (alignYaxisZero r1 r2).2 = r2) := by
  rw [align_main hA hB]
  refine ⟨fun h1 => ?_, fun h2 => ?_, fun h1 => ?_, fun h2 => ?_⟩
  · rw [if_pos h1]
    exact ⟨newMin_nonpos (targetRatio_nonneg r1 r2) (le_max_right r1.hi 0),
      le_max_right r1.hi 0⟩
  · rw [if_pos h2]
    exact ⟨newMin_nonpos (targetRatio_nonneg r1 r2) (le_max_right r2.hi 0),
      le_max_right r2.hi 0⟩
  · have hn : ¬ 0 < max r1.hi 0 := by rw [h1]; exact lt_irrefl 0
    rw [if_neg hn]
  · have hn : ¬ 0 < max r2.hi 0 := by rw [h2]; exact lt_irrefl 0
    rw [if_neg hn]

/-- Witness for C6 (amended) on the worked example `(-2,10), (-1,2)`. -/
theorem C6_zero_containment_witness :
    LB.le (alignYaxisZero (AxRange.mk (LB.fin (-2)) 10) (AxRange.mk (LB.fin (-1)) 2)).1.lo
      (LB.fin 0) ∧
    0 ≤ (alignYaxisZero (AxRange.mk (LB.fin (-2)) 10) (AxRange.mk (LB.fin (-1)) 2)).1.hi :=
  (C6_zero_containment (AxRange.mk (LB.fin (-2)) 10) (AxRange.mk (LB.fin (-1)) 2)
    (by norm_num) (by norm_num [LB.min0])).1 (by norm_num)

lemma align_update_both {r1 r2 : AxRange}
    (hB : ¬(r1.lo.min0 = LB.fin 0 ∧ r2.lo.min0 = LB.fin 0))
    (h1 : 0 < max r1.hi 0) (h2 : 0 < max r2.hi 0) :
    alignYaxisZero r1 r2 =
      (AxRange.mk (newMin (targetRatio r1 r2) (max r1.hi 0)) (max r1.hi 0),
       AxRange.mk (newMin (targetRatio r1 r2) (max r2.hi 0)) (max r2.hi 0)) := by
  have hA : ¬(max r1.hi 0 = 0 ∧ max r2.hi 0 = 0) := fun h => h1.ne' h.1
  rw [align_main hA hB, if_pos h1, if_pos h2]

lemma align_fixed_both {t : RB} (ht : t.nonneg) (htz : t ≠ RB.fin 0)
    {m1 m2 : ℚ} (h1 : 0 < m1) (h2 : 0 < m2) :
    alignYaxisZero (AxRange.mk (newMin t m1) m1) (AxRange.mk (newMin t m2) m2) =
      (AxRange.mk (newMin t m1) m1, AxRange.mk (newMin t m2) m2) := by
  have hmin1 : (AxRange.mk (newMin t m1) m1).lo.min0 = newMin t m1 :=
    newMin_min0 ht h1.le
  have hmax1 : max (AxRange.mk (newMin t m1) m1).hi 0 = m1 := max_eq_left h1.le
  have hmax2 : max (AxRange.mk (newMin t m2) m2).hi 0 = m2 := max_eq_left h2.le
  have hB2 : ¬((AxRange.mk (newMin t m1) m1).lo.min0 = LB.fin 0 ∧
      (AxRange.mk (newMin t m2) m2).lo.min0 = LB.fin 0) := by
    intro hb
    exact newMin_ne_fin_zero htz ht h1 (hmin1 ▸ hb.1)
  have h1' : 0 < max (AxRange.mk (newMin t m1) m1).hi 0 := by rw [hmax1]; exact h1
  have h2' : 0 < max (AxRange.mk (newMin t m2) m2).hi 0 := by rw [hmax2]; exact h2
  have htr : targetRatio (AxRange.mk (newMin t m1) m1) (AxRange.mk (newMin t m2) m2) = t := by
    show RB.max2 (ratioOf (newMin t m1).min0 (max m1 0))
      (ratioOf (newMin t m2).min0 (max m2 0)) = t
    rw [max_eq_left h1.le, max_eq_left h2.le, ratioOf_newMin ht h1,
        ratioOf_newMin ht h2, RB.max2_self]
  rw [align_update_both hB2 h1' h2', htr, hmax1, hmax2]

lemma align_fixed_left {m1 : ℚ} (h1 : 0 < m1) (r2 : AxRange)
    (h2 : ¬ 0 < max r2.hi 0) :
    alignYaxisZero (AxRange.mk LB.ninf m1) r2 = (AxRange.mk LB.ninf m1, r2) := by
  have hmax1 : max (AxRange.mk LB.ninf m1).hi 0 = m1 := max_eq_left h1.le
  have hA2 : ¬(max (AxRange.mk LB.ninf m1).hi 0 = 0 ∧ max r2.hi 0 = 0) := by
    intro hb
    rw [hmax1] at hb
    exact h1.ne' hb.1
  have hB2 : ¬((AxRange.mk LB.ninf m1).lo.min0 = LB.fin 0 ∧ r2.lo.min0 = LB.fin 0) := by
    intro hb
    have : LB.ninf = LB.fin 0 := hb.1
    exact absurd this (by simp)
  have htr : targetRatio (AxRange.mk LB.ninf m1) r2 = RB.pinf := by
    show RB.max2 (ratioOf LB.ninf.min0 (max m1 0)) (ratioOf r2.lo.min0 (max r2.hi 0)) =
      RB.pinf
    rw [ratioOf_not_pos h2, RB.max2_pinf_right]
  have h1' : 0 < max (AxRange.mk LB.ninf m1).hi 0 := by rw [hmax1]; exact h1
  rw [align_main hA2 hB2, if_pos h1', if_neg h2, htr, hmax1]
  rfl

lemma align_fixed_right (r1 : AxRange) (h1 : ¬ 0 < max r1.hi 0)
    {m2 : ℚ} (h2 : 0 < m2) :
    alignYaxisZero r1 (AxRange.mk LB.ninf m2) = (r1, AxRange.mk LB.ninf m2) := by
  have hmax2 : max (AxRange.mk LB.ninf m2).hi 0 = m2 := max_eq_left h2.le
  have hA2 : ¬(max r1.hi 0 = 0 ∧ max (AxRange.mk LB.ninf m2).hi 0 = 0) := by
    intro hb
    rw [hmax2] at hb
    exact h2.ne' hb.2
  have hB2 : ¬(r1.lo.min0 = LB.fin 0 ∧ (AxRange.mk LB.ninf m2).lo.min0 = LB.fin 0) := by
    intro hb
    have : LB.ninf = LB.fin 0 := hb.2
    exact absurd this (by simp)
  have htr : targetRatio r1 (AxRange.mk LB.ninf m2) = RB.pinf := by
    show RB.max2 (ratioOf r1.lo.min0 (max r1.hi 0)) (ratioOf LB.ninf.min0 (max m2 0)) =
      RB.pinf
    rw [ratioOf_not_pos h1]
    rfl
  have h2' : 0 < max (AxRange.mk LB.ninf m2).hi 0 := by rw [hmax2]; exact h2
  rw [align_main hA2 hB2, if_neg h1, if_pos h2', htr, hmax2]
  rfl

/-- C5: dual-axis alignment is idempotent — applying `align` to the pair
of ranges it produced returns that same pair, for every pair of input
ranges (including ranges whose lower limit is already `-inf` from a
previous degenerate update). -/
theorem C5_align_idempotent (r1 r2 : AxRange) :
    alignYaxisZero (alignYaxisZero r1 r2).1 (alignYaxisZero r1 r2).2 =
      alignYaxisZero r1 r2 := by
  by_cases hA : max r1.hi 0 = 0 ∧ max r2.hi 0 = 0
  · rw [align_guardA hA]
    exact align_guardA hA
  by_cases hB : r1.lo.min0 = LB.fin 0 ∧ r2.lo.min0 = LB.fin 0
  · rw [align_guardB hA hB]
    exact align_guardB hA hB
  by_cases h1 : 0 < max r1.hi 0 <;> by_cases h2 : 0 < max r2.hi 0
  · rw [align_update_both hB h1 h2]
    exact align_fixed_both (targetRatio_nonneg r1 r2) (targetRatio_ne_zero hB h1 h2) h1 h2
  · have hA1 : ¬(max r1.hi 0 = 0 ∧ max r2.hi 0 = 0) := fun h => h1.ne' h.1
    have htp : targetRatio r1 r2 = RB.pinf := by
      unfold targetRatio
      rw [ratioOf_not_pos h2, RB.max2_pinf_right]
    have hfirst : alignYaxisZero r1 r2 = (AxRange.mk LB.ninf (max r1.hi 0), r2) := by
      rw [align_main hA1 hB, if_pos h1, if_neg h2, htp]
      rfl
    rw [hfirst]
    exact align_fixed_left h1 r2 h2
  · have hA1 : ¬(max r1.hi 0 = 0 ∧ max r2.hi 0 = 0) := fun h => h2.ne' h.2
    have htp : targetRatio r1 r2 = RB.pinf := by
      unfold targetRatio
      rw [ratioOf_not_pos h1]
      rfl
    have hfirst : alignYaxisZero r1 r2 = (r1, AxRange.mk LB.ninf (max r2.hi 0)) := by
      rw [align_main hA1 hB, if_neg h1, if_pos h2, htp]
      rfl
    rw [hfirst]
    exact align_fixed_right r1 h1 h2
  · exact absurd ⟨le_antisymm (not_lt.mp h1) (le_max_right _ _),
      le_antisymm (not_lt.mp h2) (le_max_right _ _)⟩ hA

end PyMetViewer
